import Mathlib

/-!
Verification development for the flipper pipeline (src/flipper.ts and
src/utils/metadata.ts, src/utils/constants.ts).

The TypeScript source is shallowly embedded: strings are lists of
characters, JavaScript numbers are modelled by an ideal numeric type
(rationals plus NaN and the infinities, exact for the integer ranges the
pipeline manipulates), filesystem state is passed explicitly, and the
fatal process-exit paths are modelled as error values.  Recursive walks
over token ids are made structural with a fuel argument equal to the
source's natural termination measure.
-/

namespace Flipper

/-! ### JavaScript numbers

Model of the JS number values produced by the expression
Number(filename.slice(0, -5)) in setupDirectoryByType and consumed by
Math.max.  Finite values are idealized as rationals: exact for every
integer below 2^53, which covers all token ids. -/

inductive JsNum where
  | nan : JsNum
  | posInf : JsNum
  | negInf : JsNum
  | num (q : ℚ) : JsNum
deriving DecidableEq

/-- The common StrWhiteSpaceChar characters trimmed by Number(string):
tab, LF, VT, FF, CR, space, NBSP, LS, PS, ZWNBSP (ECMA-262
StringNumericLiteral; the rarer Unicode space-separator code points are
omitted, none of which can occur in the ASCII filenames concerned). -/
def isStrWS (c : Char) : Bool :=
  c = ' ' || c = Char.ofNat 9 || c = Char.ofNat 10 || c = Char.ofNat 11 ||
  c = Char.ofNat 12 || c = Char.ofNat 13 || c = Char.ofNat 160 ||
  c = Char.ofNat 8232 || c = Char.ofNat 8233 || c = Char.ofNat 65279

/-- Whitespace trimming applied by Number(string) on both ends. -/
def trimWS (s : List Char) : List Char :=
  ((s.dropWhile isStrWS).reverse.dropWhile isStrWS).reverse

/-- Decimal digit value of a character. -/
def digToNat (c : Char) : ℕ := c.toNat - 48

/-- Value of a list of decimal digits, most significant first. -/
def digitsToNat (cs : List Char) : ℕ :=
  cs.foldl (fun a c => 10 * a + digToNat c) 0

def isHexDig (c : Char) : Bool :=
  c.isDigit || (decide ('a' ≤ c) && decide (c ≤ 'f')) ||
    (decide ('A' ≤ c) && decide (c ≤ 'F'))

def isOctDig (c : Char) : Bool := decide ('0' ≤ c) && decide (c ≤ '7')

def isBinDig (c : Char) : Bool := c = '0' || c = '1'

def hexDigToNat (c : Char) : ℕ :=
  if c.isDigit then c.toNat - 48
  else if decide ('a' ≤ c) then c.toNat - 87
  else c.toNat - 55

def hexToNat (cs : List Char) : ℕ :=
  cs.foldl (fun a c => 16 * a + hexDigToNat c) 0

def octToNat (cs : List Char) : ℕ :=
  cs.foldl (fun a c => 8 * a + digToNat c) 0

def binToNat (cs : List Char) : ℕ :=
  cs.foldl (fun a c => 2 * a + digToNat c) 0

/-- ECMA-262 StrExponentPart followed by end of input: empty input means
exponent 0; otherwise an e or E, an optional sign, and at least one
digit consuming the rest of the string. -/
def parseExpPart : List Char → Option ℤ
  | [] => some 0
  | c :: rest =>
    if c = 'e' ∨ c = 'E' then
      match rest with
      | '+' :: ds =>
        if ds ≠ [] ∧ ds.all Char.isDigit = true then some (digitsToNat ds)
        else none
      | '-' :: ds =>
        if ds ≠ [] ∧ ds.all Char.isDigit = true then some (-(digitsToNat ds : ℤ))
        else none
      | ds =>
        if ds ≠ [] ∧ ds.all Char.isDigit = true then some (digitsToNat ds)
        else none
    else none

/-- Value of an unsigned decimal literal with integer digits ds1,
fraction digits ds2 and exponent e: the digit string read as an integer,
scaled by ten to the power e - length ds2. -/
def decValue (ds1 ds2 : List Char) (e : ℤ) : ℚ :=
  let k : ℤ := e - (ds2.length : ℤ)
  if 0 ≤ k then mkRat ((digitsToNat (ds1 ++ ds2) * 10 ^ k.toNat : ℕ) : ℤ) 1
  else mkRat ((digitsToNat (ds1 ++ ds2) : ℕ) : ℤ) (10 ^ (-k).toNat)

/-- ECMA-262 StrUnsignedDecimalLiteral other than Infinity:
DecimalDigits [. DecimalDigits] [ExponentPart] or . DecimalDigits
[ExponentPart], consuming the whole input. -/
def parseDecCore (t : List Char) : Option ℚ :=
  let ds1 := t.takeWhile Char.isDigit
  let r1 := t.dropWhile Char.isDigit
  match r1 with
  | '.' :: r2 =>
    let ds2 := r2.takeWhile Char.isDigit
    let r3 := r2.dropWhile Char.isDigit
    if ds1 = [] ∧ ds2 = [] then none
    else
      match parseExpPart r3 with
      | some e => some (decValue ds1 ds2 e)
      | none => none
  | _ =>
    if ds1 = [] then none
    else
      match parseExpPart r1 with
      | some e => some (decValue ds1 [] e)
      | none => none

def infinityChars : List Char := ['I', 'n', 'f', 'i', 'n', 'i', 't', 'y']

/-- StrUnsignedDecimalLiteral with a sign already removed; sign is 1
or -1. -/
def parseDecOrInf (t : List Char) (sign : ℤ) : Option JsNum :=
  if t = infinityChars then
    some (if sign = 1 then JsNum.posInf else JsNum.negInf)
  else
    match parseDecCore t with
    | some q => some (JsNum.num (if sign = 1 then q else -q))
    | none => none

/-- ECMA-262 StrDecimalLiteral: optional sign, then Infinity or an
unsigned decimal literal. -/
def parseSignedDec (t : List Char) : Option JsNum :=
  match t with
  | '+' :: r => parseDecOrInf r 1
  | '-' :: r => parseDecOrInf r (-1)
  | _ => parseDecOrInf t 1

/-- ECMA-262 NonDecimalIntegerLiteral: 0x/0X hex, 0o/0O octal, 0b/0B
binary; no sign allowed.  Returns some NaN when the prefix is present
but the digits are malformed (a 0x-headed string can never re-parse as
decimal). -/
def parseNonDec (t : List Char) : Option JsNum :=
  match t with
  | '0' :: c :: rest =>
    if c = 'x' ∨ c = 'X' then
      some (if rest ≠ [] ∧ rest.all isHexDig = true
            then JsNum.num (hexToNat rest) else JsNum.nan)
    else if c = 'o' ∨ c = 'O' then
      some (if rest ≠ [] ∧ rest.all isOctDig = true
            then JsNum.num (octToNat rest) else JsNum.nan)
    else if c = 'b' ∨ c = 'B' then
      some (if rest ≠ [] ∧ rest.all isBinDig = true
            then JsNum.num (binToNat rest) else JsNum.nan)
    else none
  | _ => none

/-- The JavaScript Number(string) conversion (ECMA-262
StringNumericLiteral): trim whitespace; empty means +0; otherwise a
non-decimal integer literal or a signed decimal literal; anything else
is NaN. -/
def jsNumber (s : List Char) : JsNum :=
  let t := trimWS s
  if t = [] then JsNum.num 0
  else
    match parseNonDec t with
    | some v => v
    | none =>
      match parseSignedDec t with
      | some v => v
      | none => JsNum.nan

/-- JavaScript Math.max on two values: NaN is absorbing, otherwise the
numeric order with the infinities at the ends. -/
def jsMaxPair (a b : JsNum) : JsNum :=
  match a, b with
  | JsNum.nan, _ => JsNum.nan
  | _, JsNum.nan => JsNum.nan
  | JsNum.posInf, _ => JsNum.posInf
  | _, JsNum.posInf => JsNum.posInf
  | JsNum.negInf, x => x
  | x, JsNum.negInf => x
  | JsNum.num p, JsNum.num q => JsNum.num (max p q)

/-- JavaScript Math.max(...list): fold from the no-argument value
-Infinity. -/
def mathMax (l : List JsNum) : JsNum := l.foldl jsMaxPair JsNum.negInf

/-! ### Basic string helpers (JS String.prototype methods) -/

/-- pat read left to right is a leading segment of l. -/
def leadsWith : List Char → List Char → Bool
  | [], _ => true
  | _ :: _, [] => false
  | p :: ps, c :: cs => p = c && leadsWith ps cs

/-- JS String.prototype.includes: pat occurs somewhere in the string. -/
def hasSubstr (pat : List Char) : List Char → Bool
  | [] => leadsWith pat []
  | c :: rest => leadsWith pat (c :: rest) || hasSubstr pat rest

/-- JS String.prototype.endsWith. -/
def endsIn (suf l : List Char) : Bool := leadsWith suf.reverse l.reverse

/-! ### Directory State Tracker (flipper.ts, setupDirectoryByType,
lines 450-494 of the current revision) -/

/-- Observable state of one category root (original or flipped) as seen
by setupDirectoryByType: whether the images subfolder exists
(fs.existsSync(metadataFolder + "/images")) and the list of entry names
directly under the category root (fs.readdirSync(metadataFolder)). -/
structure DirState where
  imagesExists : Bool
  filenames : List (List Char)

def jsonExt : List Char := ['.', 'j', 's', 'o', 'n']

/-- The tokenIds array of setupDirectoryByType: for each filename
ending in .json, Number(filename.slice(0, -5)); other filenames
contribute nothing (flatMap returning []). -/
def tokenIdsOf (files : List (List Char)) : List JsNum :=
  files.flatMap fun f =>
    if endsIn jsonExt f = true then [jsNumber (f.take (f.length - 5))]
    else []

/-- setupDirectoryByType: if the images subfolder does not exist, create
the tree (side effect not observed here) and return 0; else return
Math.max of the parsed token ids when at least one .json file exists,
and 0 otherwise. -/
def setupDirectoryByType (d : DirState) : JsNum :=
  if d.imagesExists = false then JsNum.num 0
  else
    let tokenIds := tokenIdsOf d.filenames
    if 0 < tokenIds.length then mathMax tokenIds
    else JsNum.num 0

/-! ### Locator Resolver (utils/metadata.ts collectURILocation and
utils/constants.ts IPFSRegex) -/

/-- The character class [1-9A-Za-z] of IPFSRegex: digits one to nine and
every ASCII letter.  Note it excludes the digit 0 but not O, I or l. -/
def isBodyChar (c : Char) : Bool :=
  (decide ('1' ≤ c) && decide (c ≤ '9')) ||
  (decide ('A' ≤ c) && decide (c ≤ 'Z')) ||
  (decide ('a' ≤ c) && decide (c ≤ 'z'))

/-- The greedy optional group (/[0-9]+)? of IPFSRegex, applied to the
input remaining after the fixed-length head: it contributes a slash and
the maximal nonempty run of digits when the input starts that way, and
the empty string otherwise. -/
def suffixMatch (rest2 : List Char) : List Char :=
  match rest2 with
  | '/' :: rest3 =>
    if rest3.takeWhile Char.isDigit = [] then []
    else '/' :: rest3.takeWhile Char.isDigit
  | _ => []

/-- Attempt of IPFSRegex = Qm[1-9A-Za-z]\x7b43\x7d[^OIl](/[0-9]+)? at
the head of the input, returning the matched substring.  At a fixed
start position the pattern is deterministic: the two literals, a
fixed-length body, one character that is anything but O, I or l, then
the greedy optional slash-digits group. -/
def matchAt (cs : List Char) : Option (List Char) :=
  match cs with
  | q :: m1 :: rest =>
    if q = 'Q' ∧ m1 = 'm' ∧ (rest.take 43).length = 43 ∧
        (rest.take 43).all isBodyChar = true then
      match rest.drop 43 with
      | c :: rest2 =>
        if c = 'O' ∨ c = 'I' ∨ c = 'l' then none
        else some (q :: m1 :: (rest.take 43 ++ [c]) ++ suffixMatch rest2)
      | [] => none
    else none
  | _ => none

/-- URI.match(IPFSRegex): the leftmost match, scanning start positions
left to right. -/
def ipfsMatch : List Char → Option (List Char)
  | [] => none
  | c :: rest =>
    match matchAt (c :: rest) with
    | some m => some m
    | none => ipfsMatch rest

/-- The matched substrings of IPFSRegex, described declaratively: Qm,
then 43 characters from [1-9A-Za-z], then one character other than O, I
and l, then optionally a slash and at least one digit. -/
def IsIPFSToken (m : List Char) : Prop :=
  ∃ body c suf, m = 'Q' :: 'm' :: (body ++ c :: suf) ∧
    body.length = 43 ∧ body.all isBodyChar = true ∧
    ¬(c = 'O' ∨ c = 'I' ∨ c = 'l') ∧
    (suf = [] ∨ ∃ ds, suf = '/' :: ds ∧ ds ≠ [] ∧ ds.all Char.isDigit = true)

inductive URILocation where
  | IPFS : URILocation
  | HTTPS : URILocation
deriving DecidableEq

/-- The fatal classification failure of collectURILocation.  The source
logs "Unsupported URI type" and calls process.exit(1); the non-returning
exit path is modelled as this error value. -/
inductive URIError where
  | UnsupportedLocatorError (uri : List Char) : URIError
deriving DecidableEq

def httpsMark : List Char := ['h', 't', 't', 'p', 's', ':', '/', '/']

instance {ε α : Type} [DecidableEq ε] [DecidableEq α] :
    DecidableEq (Except ε α) := fun a b =>
  match a, b with
  | Except.ok x, Except.ok y =>
    if h : x = y then isTrue (by rw [h]) else isFalse (by simp [h])
  | Except.error x, Except.error y =>
    if h : x = y then isTrue (by rw [h]) else isFalse (by simp [h])
  | Except.ok _, Except.error _ => isFalse (by simp)
  | Except.error _, Except.ok _ => isFalse (by simp)

/-- collectURILocation (utils/metadata.ts lines 16-36): IPFS regex match
wins and returns the truncated matched substring; else a string
containing https:// is returned unmodified as HTTPS; else the process
exits, modelled as the UnsupportedLocatorError value. -/
def collectURILocation (uri : List Char) :
    Except URIError (URILocation × List Char) :=
  match ipfsMatch uri with
  | some m => Except.ok (URILocation.IPFS, m)
  | none =>
    if hasSubstr httpsMark uri = true then Except.ok (URILocation.HTTPS, uri)
    else Except.error (URIError.UnsupportedLocatorError uri)

/-- Modelled from the spec: the content-addressed pattern exactly as the
claim words it — a 46-character token beginning with Qm whose characters
are alphanumeric and exclude the visually ambiguous characters 0, O, I
and l.  Second definition for the refinement comparison against the
source regex above. -/
def specCASChar (c : Char) : Bool :=
  (c.isDigit || c.isAlpha) && !(c = '0' || c = 'O' || c = 'I' || c = 'l')

/-- Modelled from the spec: the claim's 46-character token begins at the
head of the input. -/
def specTokenAt (cs : List Char) : Bool :=
  match cs with
  | 'Q' :: 'm' :: rest =>
    (rest.take 44).length = 44 && (rest.take 44).all specCASChar
  | _ => false

/-- Modelled from the spec: the input contains the claim's 46-character
token somewhere. -/
def specIsContentAddressed : List Char → Bool
  | [] => false
  | c :: rest => specTokenAt (c :: rest) || specIsContentAddressed rest

/-! ### Original Fetch Stage (flipper.ts scrapeOriginalToken, lines
529-591): the cursor walk.  The source recursion terminates because
supply - tokenId decreases; the embedding makes that measure an explicit
structural fuel argument, initialized so that it never runs out. -/

/-- One activation of scrapeOriginalToken: stop when
tokenId >= collectionSupply, else process tokenId and recurse on
tokenId + 1.  Returns the ids processed, in order. -/
def scrapeGo : ℕ → ℕ → ℕ → List ℕ
  | fuel, tokenId, supply =>
    if supply ≤ tokenId then []
    else
      match fuel with
      | 0 => []
      | f + 1 => tokenId :: scrapeGo f (tokenId + 1) supply

/-- The ids processed by scrapeOriginalToken started at tokenId against
a collection of the given supply. -/
def scrapeOriginalToken (tokenId supply : ℕ) : List ℕ :=
  scrapeGo (supply - tokenId) tokenId supply

/-- On-disk write events of the original tree. -/
inductive WriteEvent where
  | metaWrite (tokenId : ℕ) : WriteEvent
  | imageWrite (tokenId : ℕ) : WriteEvent
deriving DecidableEq

/-- Write order of one scrapeOriginalToken iteration (flipper.ts lines
559-586): fs.writeFileSync of original/tokenId.json happens first; only
afterwards, when the metadata has an image field, the image is fetched
and saved to original/images/tokenId.png. -/
def scrapeTokenWrites (hasImage : Bool) (tokenId : ℕ) : List WriteEvent :=
  WriteEvent.metaWrite tokenId ::
    (if hasImage then [WriteEvent.imageWrite tokenId] else [])

/-! ### Transform Stage (flipper.ts postProcess, lines 596-622) -/

/-- Which files exist in the original tree: metadata original/j.json and
image original/images/j.png. -/
structure OrigTree where
  meta : ℕ → Bool
  image : ℕ → Bool

/-- Which files exist in the flipped tree. -/
structure FlipFS where
  meta : ℕ → Bool
  image : ℕ → Bool

def addFlipMeta (fs : FlipFS) (tokenId : ℕ) : FlipFS :=
  { fs with meta := fun n => if n = tokenId then true else fs.meta n }

def addFlipImage (fs : FlipFS) (tokenId : ℕ) : FlipFS :=
  { fs with image := fun n => if n = tokenId then true else fs.image n }

/-- The abort causes of postProcess: fs.copyFileSync throws when the
source metadata file is missing; Jimp.read throws when the source image
file is missing.  Either exception propagates and ends the run. -/
inductive PPError where
  | copyFailed (tokenId : ℕ) : PPError
  | imageReadFailed (tokenId : ℕ) : PPError
deriving DecidableEq

/-- Outcome of a postProcess run: the flipped tree afterwards, the
exception if one aborted the run, the cursor value at which the
recursion stopped, and the ids fully flipped (copy plus image), in
order. -/
structure PPResult where
  fs : FlipFS
  err : Option PPError
  terminal : ℕ
  flipped : List ℕ

/-- One activation of postProcess (flipper.ts lines 596-622): stop when
lastFlipped >= lastScrapedToken; else copy original/lastFlipped.json to
flipped/lastFlipped.json, read original/images/lastFlipped.png, flip and
write flipped/images/lastFlipped.png, and recurse on lastFlipped + 1.
The structural fuel equals the decreasing measure
lastScraped - lastFlipped. -/
def postProcessGo (orig : OrigTree) :
    ℕ → FlipFS → ℕ → ℕ → PPResult
  | fuel, fs, lastFlipped, lastScraped =>
    if lastScraped ≤ lastFlipped then ⟨fs, none, lastFlipped, []⟩
    else
      match fuel with
      | 0 => ⟨fs, none, lastFlipped, []⟩
      | f + 1 =>
        if orig.meta lastFlipped = false then
          ⟨fs, some (PPError.copyFailed lastFlipped), lastFlipped, []⟩
        else
          let fs1 := addFlipMeta fs lastFlipped
          if orig.image lastFlipped = false then
            ⟨fs1, some (PPError.imageReadFailed lastFlipped), lastFlipped, []⟩
          else
            let fs2 := addFlipImage fs1 lastFlipped
            let r := postProcessGo orig f fs2 (lastFlipped + 1) lastScraped
            ⟨r.fs, r.err, r.terminal, lastFlipped :: r.flipped⟩

/-- postProcess started at cursor lastFlipped with watermark
lastScraped (the value held in this.lastScrapedToken), over an original
tree and an initial flipped tree. -/
def postProcess (orig : OrigTree) (fs : FlipFS)
    (lastFlipped lastScraped : ℕ) : PPResult :=
  postProcessGo orig (lastScraped - lastFlipped) fs lastFlipped lastScraped

/-! ### Publish Stage Phase B rewrite.

The Publish Stage is absent from the repository source: the current
revision of flipper.ts ends process() at the human confirmation gate
with the upload left as a comment.  The definitions below are therefore
modelled from the spec (section 4.6 and testable property 6). -/

/-- JSON-like values of a metadata mapping.  String values are concrete;
every other JSON shape is opaque to the rewrite and is represented
abstractly. -/
inductive JVal where
  | str (s : List Char) : JVal
  | other (payload : ℕ) : JVal
deriving DecidableEq

/-- A metadata document: a generic ordered mapping with string keys. -/
abbrev Meta : Type := List (List Char × JVal)

def imageKey : List Char := ['i', 'm', 'a', 'g', 'e']

/-- Modelled from the spec: the canonical reference built from the
images hash and the file's id, cas://imagesHash/id.png. -/
def canonicalImageRef (imagesHash : List Char) (tokenId : ℕ) : List Char :=
  ['c', 'a', 's', ':', '/', '/'] ++ imagesHash ++
    '/' :: Nat.toDigits 10 tokenId ++ ['.', 'p', 'n', 'g']

/-- Modelled from the spec: the Publish Stage Phase B per-file rewrite,
operating on the already-parsed ordered mapping — replace the value of
the image field with the canonical reference and leave every other
field untouched. -/
def rewriteImageField (imagesHash : List Char) (tokenId : ℕ) (m : Meta) :
    Meta :=
  m.map fun kv =>
    if kv.1 = imageKey then (kv.1, JVal.str (canonicalImageRef imagesHash tokenId))
    else kv

/-- Field lookup in a metadata mapping: first binding of the key. -/
def lookupKey (k : List Char) : Meta → Option JVal
  | [] => none
  | kv :: rest => if kv.1 = k then some kv.2 else lookupKey k rest

/-! ### Lemmas about the Original Fetch Stage cursor walk -/

theorem scrapeGo_eq (fuel : ℕ) : ∀ tokenId supply : ℕ,
    supply - tokenId ≤ fuel →
    scrapeGo fuel tokenId supply = List.range' tokenId (supply - tokenId) := by
  induction fuel with
  | zero =>
    intro t s h
    have hle : s ≤ t := by omega
    rw [scrapeGo]
    simp [hle, Nat.sub_eq_zero_of_le hle]
  | succ f ih =>
    intro t s h
    rw [scrapeGo]
    by_cases hts : s ≤ t
    · simp [hts, Nat.sub_eq_zero_of_le hts]
    · have h1 : s - (t + 1) ≤ f := by omega
      simp only [if_neg hts]
      rw [ih (t + 1) s h1]
      have h2 : s - t = (s - (t + 1)) + 1 := by omega
      rw [h2, List.range'_succ]

theorem scrapeOriginalToken_eq (tokenId supply : ℕ) :
    scrapeOriginalToken tokenId supply
      = List.range' tokenId (supply - tokenId) :=
  scrapeGo_eq (supply - tokenId) tokenId supply le_rfl

/-- C6: the Original Fetch Stage, started at cursor resumePoint + 1,
processes exactly the contiguous ids from resumePoint + 1 up to
supply - 1 in strictly increasing order with no duplicates; the id equal
to supply is never fetched, and supply - 1 is fetched whenever it is
reachable from the start cursor. -/
theorem C6_scrape_strictly_increasing_no_skip (resumePoint supply : ℕ) :
    scrapeOriginalToken (resumePoint + 1) supply
      = List.range' (resumePoint + 1) (supply - (resumePoint + 1)) ∧
    (scrapeOriginalToken (resumePoint + 1) supply).Pairwise (· < ·) ∧
    (scrapeOriginalToken (resumePoint + 1) supply).Nodup ∧
    (∀ n, n ∈ scrapeOriginalToken (resumePoint + 1) supply ↔
      resumePoint + 1 ≤ n ∧ n < supply) ∧
    supply ∉ scrapeOriginalToken (resumePoint + 1) supply ∧
    (resumePoint + 1 < supply →
      supply - 1 ∈ scrapeOriginalToken (resumePoint + 1) supply) := by
  rw [scrapeOriginalToken_eq]
  refine ⟨rfl, List.pairwise_lt_range' _ _, List.nodup_range' _ _, ?_, ?_, ?_⟩
  · intro n
    rw [List.mem_range'_1]
    omega
  · rw [List.mem_range'_1]
    omega
  · intro h
    rw [List.mem_range'_1]
    omega

theorem C6_witness :
    5 - 1 ∈ scrapeOriginalToken (1 + 1) 5 :=
  (C6_scrape_strictly_increasing_no_skip 1 5).2.2.2.2.2 (by decide)

/-- C9: on a fresh run the Directory State Tracker returns 0 (both when
the images subfolder is missing and when the category root exists but
holds no metadata files), the pipeline starts the Original Fetch Stage
at cursor 0 + 1 = 1, and id 0 is never fetched — although a walk started
at 0 would fetch it for any positive supply. -/
theorem C9_fresh_run_skips_token_zero (files : List (List Char)) (supply : ℕ) :
    setupDirectoryByType ⟨false, files⟩ = JsNum.num 0 ∧
    setupDirectoryByType ⟨true, []⟩ = JsNum.num 0 ∧
    0 ∉ scrapeOriginalToken (0 + 1) supply ∧
    (0 < supply → 0 ∈ scrapeOriginalToken 0 supply) := by
  refine ⟨rfl, rfl, ?_, ?_⟩
  · rw [scrapeOriginalToken_eq, List.mem_range'_1]
    omega
  · intro h
    rw [scrapeOriginalToken_eq, List.mem_range'_1]
    omega

theorem C9_witness :
    0 ∈ scrapeOriginalToken 0 3 :=
  (C9_fresh_run_skips_token_zero [] 3).2.2.2 (by decide)

/-- C7: evaluation of the write order of one Original Fetch Stage
iteration for a token whose metadata references an image.  The source
(flipper.ts lines 559-586) performs fs.writeFileSync of the metadata
first and only then fetches and saves the image, so the metadata write
precedes the image write — the reverse of the specified ordering. -/
theorem C7_metadata_write_precedes_image_write :
    scrapeTokenWrites true 7
      = [WriteEvent.metaWrite 7, WriteEvent.imageWrite 7] := by
  decide

/-! ### Lemmas about the Transform Stage -/

theorem postProcessGo_complete (orig : OrigTree) (fuel : ℕ) :
    ∀ (fs : FlipFS) (c K : ℕ), K - c ≤ fuel →
    (∀ j, c ≤ j → j < K → orig.meta j = true ∧ orig.image j = true) →
    (postProcessGo orig fuel fs c K).err = none ∧
    (postProcessGo orig fuel fs c K).terminal = max c K ∧
    (postProcessGo orig fuel fs c K).flipped = List.range' c (K - c) := by
  induction fuel with
  | zero =>
    intro fs c K h hok
    have hle : K ≤ c := by omega
    rw [postProcessGo]
    simp [hle, Nat.sub_eq_zero_of_le hle, Nat.max_eq_left hle]
  | succ f ih =>
    intro fs c K h hok
    by_cases hcK : K ≤ c
    · rw [postProcessGo]
      simp [hcK, Nat.sub_eq_zero_of_le hcK, Nat.max_eq_left hcK]
    · have hc : c < K := by omega
      obtain ⟨hm, hi⟩ := hok c le_rfl hc
      have hm' : ¬(orig.meta c = false) := by simp [hm]
      have hi' : ¬(orig.image c = false) := by simp [hi]
      obtain ⟨he, ht, hf⟩ := ih (addFlipImage (addFlipMeta fs c) c) (c + 1) K
        (by omega) (fun j h1 h2 => hok j (by omega) h2)
      have key : postProcessGo orig (f + 1) fs c K
          = ⟨(postProcessGo orig f (addFlipImage (addFlipMeta fs c) c) (c + 1) K).fs,
             (postProcessGo orig f (addFlipImage (addFlipMeta fs c) c) (c + 1) K).err,
             (postProcessGo orig f (addFlipImage (addFlipMeta fs c) c) (c + 1) K).terminal,
             c :: (postProcessGo orig f (addFlipImage (addFlipMeta fs c) c) (c + 1) K).flipped⟩ := by
        rw [postProcessGo]
        simp only [if_neg hcK, if_neg hm', if_neg hi']
      rw [key]
      refine ⟨he, ?_, ?_⟩
      · show (postProcessGo orig f (addFlipImage (addFlipMeta fs c) c) (c + 1) K).terminal
          = max c K
        rw [ht]
        omega
      · show c :: (postProcessGo orig f (addFlipImage (addFlipMeta fs c) c) (c + 1) K).flipped
          = List.range' c (K - c)
        rw [hf]
        have h2 : K - c = (K - (c + 1)) + 1 := by omega
        rw [h2, List.range'_succ]

theorem postProcess_complete (orig : OrigTree) (fs : FlipFS) (c K : ℕ)
    (hok : ∀ j, c ≤ j → j < K → orig.meta j = true ∧ orig.image j = true) :
    (postProcess orig fs c K).err = none ∧
    (postProcess orig fs c K).terminal = max c K ∧
    (postProcess orig fs c K).flipped = List.range' c (K - c) :=
  postProcessGo_complete orig (K - c) fs c K le_rfl hok

/-- C1 counterexample: with original watermark K = 2 held in
lastScrapedToken and flipped resume point 0, the Transform Stage flips
only id 1 and stops with cursor 2: the iteration with cursor equal to K
does not execute (the source comparison lastFlipped >= lastScrapedToken
is non-strict), so id K is not flipped and the terminal state is not
reached at cursor K + 1. -/
theorem C1_counterexample :
    ¬(2 ∈ (postProcess ⟨fun _ => true, fun _ => true⟩
            ⟨fun _ => false, fun _ => false⟩ (0 + 1) 2).flipped ∧
      (postProcess ⟨fun _ => true, fun _ => true⟩
            ⟨fun _ => false, fun _ => false⟩ (0 + 1) 2).terminal = 2 + 1) := by
  decide

/-- C1 amended: for the watermark K held in lastScrapedToken, the
Transform Stage starting at flippedResumePoint + 1 flips every id from
its start up to and including K - 1 and reaches its terminal state
exactly at cursor max (flippedResumePoint + 1) K — at cursor K whenever
the start does not exceed K; the comparison is non-strict, so the
iteration with cursor equal to K does not execute and K itself is never
flipped by this run. -/
theorem C1_transform_terminal (orig : OrigTree) (fs : FlipFS)
    (flippedResumePoint K : ℕ)
    (hok : ∀ j, orig.meta j = true ∧ orig.image j = true) :
    (postProcess orig fs (flippedResumePoint + 1) K).err = none ∧
    (postProcess orig fs (flippedResumePoint + 1) K).flipped
      = List.range' (flippedResumePoint + 1) (K - (flippedResumePoint + 1)) ∧
    (∀ n, n ∈ (postProcess orig fs (flippedResumePoint + 1) K).flipped ↔
      flippedResumePoint + 1 ≤ n ∧ n < K) ∧
    (postProcess orig fs (flippedResumePoint + 1) K).terminal
      = max (flippedResumePoint + 1) K ∧
    K ∉ (postProcess orig fs (flippedResumePoint + 1) K).flipped := by
  obtain ⟨he, ht, hf⟩ := postProcess_complete orig fs (flippedResumePoint + 1) K
    (fun j _ _ => hok j)
  refine ⟨he, hf, ?_, ht, ?_⟩
  · intro n
    rw [hf, List.mem_range'_1]
    omega
  · rw [hf, List.mem_range'_1]
    omega

theorem C1_witness :
    (postProcess ⟨fun _ => true, fun _ => true⟩
        ⟨fun _ => false, fun _ => false⟩ (0 + 1) 5).flipped
      = List.range' (0 + 1) (5 - (0 + 1)) ∧
    (postProcess ⟨fun _ => true, fun _ => true⟩
        ⟨fun _ => false, fun _ => false⟩ (0 + 1) 5).terminal
      = max (0 + 1) 5 ∧
    5 ∉ (postProcess ⟨fun _ => true, fun _ => true⟩
        ⟨fun _ => false, fun _ => false⟩ (0 + 1) 5).flipped := by
  have h := C1_transform_terminal ⟨fun _ => true, fun _ => true⟩
    ⟨fun _ => false, fun _ => false⟩ 0 5 (fun j => ⟨rfl, rfl⟩)
  exact ⟨h.2.1, h.2.2.2.1, h.2.2.2.2⟩

theorem postProcessGo_abort (orig : OrigTree) (tokenId K : ℕ)
    (hmeta : orig.meta tokenId = true) (himg : orig.image tokenId = false)
    (fuel : ℕ) :
    ∀ (fs : FlipFS) (c : ℕ), c ≤ tokenId → tokenId < K → K - c ≤ fuel →
    (∀ j, c ≤ j → j < tokenId → orig.meta j = true ∧ orig.image j = true) →
    (postProcessGo orig fuel fs c K).err
      = some (PPError.imageReadFailed tokenId) ∧
    (postProcessGo orig fuel fs c K).terminal = tokenId ∧
    (postProcessGo orig fuel fs c K).fs.meta tokenId = true ∧
    (postProcessGo orig fuel fs c K).fs.image tokenId = fs.image tokenId ∧
    (postProcessGo orig fuel fs c K).flipped = List.range' c (tokenId - c) := by
  induction fuel with
  | zero =>
    intro fs c h1 h2 h3 hpre
    omega
  | succ f ih =>
    intro fs c h1 h2 h3 hpre
    have hcK : ¬ K ≤ c := by omega
    rcases Nat.eq_or_lt_of_le h1 with hceq | hclt
    · subst hceq
      have hm' : ¬(orig.meta c = false) := by simp [hmeta]
      have key : postProcessGo orig (f + 1) fs c K
          = ⟨addFlipMeta fs c, some (PPError.imageReadFailed c), c, []⟩ := by
        rw [postProcessGo]
        simp only [if_neg hcK, if_neg hm', if_pos himg]
      rw [key]
      refine ⟨rfl, rfl, by simp [addFlipMeta], rfl, by simp⟩
    · obtain ⟨hm, hi⟩ := hpre c le_rfl hclt
      have hm' : ¬(orig.meta c = false) := by simp [hm]
      have hi' : ¬(orig.image c = false) := by simp [hi]
      obtain ⟨he, ht, hm2, hi2, hf⟩ := ih (addFlipImage (addFlipMeta fs c) c)
        (c + 1) (by omega) h2 (by omega) (fun j ha hb => hpre j (by omega) hb)
      have key : postProcessGo orig (f + 1) fs c K
          = ⟨(postProcessGo orig f (addFlipImage (addFlipMeta fs c) c) (c + 1) K).fs,
             (postProcessGo orig f (addFlipImage (addFlipMeta fs c) c) (c + 1) K).err,
             (postProcessGo orig f (addFlipImage (addFlipMeta fs c) c) (c + 1) K).terminal,
             c :: (postProcessGo orig f (addFlipImage (addFlipMeta fs c) c) (c + 1) K).flipped⟩ := by
        rw [postProcessGo]
        simp only [if_neg hcK, if_neg hm', if_neg hi']
      rw [key]
      refine ⟨he, ht, hm2, ?_, ?_⟩
      · show (postProcessGo orig f (addFlipImage (addFlipMeta fs c) c) (c + 1) K).fs.image tokenId
          = fs.image tokenId
        rw [hi2]
        have hne : tokenId ≠ c := by omega
        simp [addFlipImage, addFlipMeta, hne]
      · show c :: (postProcessGo orig f (addFlipImage (addFlipMeta fs c) c) (c + 1) K).flipped
          = List.range' c (tokenId - c)
        rw [hf]
        have hx : tokenId - c = (tokenId - (c + 1)) + 1 := by omega
        rw [hx, List.range'_succ]

/-- C10: when the Transform Stage reaches an id in its range whose
original image file is missing (as happens when the original metadata
had no image field, so the Original Fetch Stage wrote the metadata JSON
but no image), it first copies the metadata JSON into the flipped tree,
then fails reading the missing image: the run aborts with the cursor on
that id, the flipped metadata file exists, no flipped image sibling was
written, and the id is not recorded as flipped — the per-id transform is
not atomic on error. -/
theorem C10_transform_not_atomic_on_error (orig : OrigTree) (fs : FlipFS)
    (start tokenId K : ℕ) (h1 : start ≤ tokenId) (h2 : tokenId < K)
    (hmeta : orig.meta tokenId = true) (himg : orig.image tokenId = false)
    (hpre : ∀ j, start ≤ j → j < tokenId →
      orig.meta j = true ∧ orig.image j = true) :
    (postProcess orig fs start K).err
      = some (PPError.imageReadFailed tokenId) ∧
    (postProcess orig fs start K).fs.meta tokenId = true ∧
    (postProcess orig fs start K).fs.image tokenId = fs.image tokenId ∧
    (postProcess orig fs start K).terminal = tokenId ∧
    tokenId ∉ (postProcess orig fs start K).flipped := by
  obtain ⟨he, ht, hm, hi, hf⟩ := postProcessGo_abort orig tokenId K hmeta himg
    (K - start) fs start h1 h2 le_rfl hpre
  refine ⟨he, hm, hi, ht, ?_⟩
  show tokenId ∉ (postProcessGo orig (K - start) fs start K).flipped
  rw [hf, List.mem_range'_1]
  omega

/-! ### Lemmas about the Directory State Tracker -/

theorem intCast_max (a b : ℤ) : ((max a b : ℤ) : ℚ) = max (a : ℚ) (b : ℚ) := by
  rcases le_total a b with h | h
  · rw [max_eq_right h, max_eq_right (by exact_mod_cast h)]
  · rw [max_eq_left h, max_eq_left (by exact_mod_cast h)]

theorem jsMaxPair_num_num (p q : ℚ) :
    jsMaxPair (JsNum.num p) (JsNum.num q) = JsNum.num (max p q) := rfl

theorem foldl_jsMaxPair_int (zs : List ℤ) : ∀ a : ℤ,
    List.foldl jsMaxPair (JsNum.num (a : ℚ))
        (zs.map fun z : ℤ => JsNum.num (z : ℚ))
      = JsNum.num ((zs.foldl max a : ℤ) : ℚ) := by
  induction zs with
  | nil => intro a; rfl
  | cons z zs ih =>
    intro a
    simp only [List.map_cons, List.foldl_cons, jsMaxPair_num_num]
    rw [← intCast_max, ih (max a z)]

theorem mathMax_int (z : ℤ) (zs : List ℤ) :
    mathMax ((z :: zs).map fun w : ℤ => JsNum.num (w : ℚ))
      = JsNum.num ((zs.foldl max z : ℤ) : ℚ) := by
  unfold mathMax
  simp only [List.map_cons, List.foldl_cons]
  exact foldl_jsMaxPair_int zs z

theorem jsMaxPair_nan_right (a : JsNum) : jsMaxPair a JsNum.nan = JsNum.nan := by
  cases a <;> rfl

theorem foldl_jsMaxPair_nan (l : List JsNum) :
    List.foldl jsMaxPair JsNum.nan l = JsNum.nan := by
  induction l with
  | nil => rfl
  | cons x xs ih => simpa [jsMaxPair] using ih

theorem mathMax_nan_mem (l : List JsNum) (h : JsNum.nan ∈ l) :
    mathMax l = JsNum.nan := by
  unfold mathMax
  generalize JsNum.negInf = a
  induction l generalizing a with
  | nil => cases h
  | cons x xs ih =>
    rcases List.mem_cons.mp h with hx | hxs
    · subst hx
      simpa [jsMaxPair_nan_right] using foldl_jsMaxPair_nan xs
    · exact ih hxs _

/-- C2: the Directory State Tracker over an existing directory whose
metadata filenames parse to a non-empty list of integers returns the
maximum of those integers; if no metadata file is present, or the images
subfolder did not exist and was created, it returns 0. -/
theorem C2_resume_point_is_max :
    (∀ (d : DirState) (z : ℤ) (zs : List ℤ), d.imagesExists = true →
      tokenIdsOf d.filenames = (z :: zs).map (fun w : ℤ => JsNum.num (w : ℚ)) →
      setupDirectoryByType d = JsNum.num ((zs.foldl max z : ℤ) : ℚ)) ∧
    (∀ d : DirState, d.imagesExists = true → tokenIdsOf d.filenames = [] →
      setupDirectoryByType d = JsNum.num 0) ∧
    (∀ d : DirState, d.imagesExists = false →
      setupDirectoryByType d = JsNum.num 0) := by
  refine ⟨?_, ?_, ?_⟩
  · intro d z zs himg htok
    unfold setupDirectoryByType
    rw [himg, htok]
    simp only [Bool.true_eq_false, if_false]
    rw [if_pos (by simp), mathMax_int]
  · intro d himg htok
    unfold setupDirectoryByType
    rw [himg, htok]
    simp
  · intro d himg
    unfold setupDirectoryByType
    rw [himg]
    simp

theorem C2_witness :
    setupDirectoryByType ⟨true, [['0', '.', 'j', 's', 'o', 'n'],
        ['2', '.', 'j', 's', 'o', 'n'], ['5', '.', 'j', 's', 'o', 'n']]⟩
      = JsNum.num 5 := by
  have h := C2_resume_point_is_max.1
    ⟨true, [['0', '.', 'j', 's', 'o', 'n'], ['2', '.', 'j', 's', 'o', 'n'],
      ['5', '.', 'j', 's', 'o', 'n']]⟩ 0 [2, 5] rfl (by decide)
  rw [h]
  norm_num [List.foldl]

/-- C3 counterexample: a directory holding the valid metadata file
2.json and the malformed foo.json yields NaN from the Directory State
Tracker (Number of the stem foo is NaN and Math.max absorbs it), not the
value 2 obtained from the valid files alone — the malformed .json
filename is not silently skipped. -/
theorem C3_counterexample :
    setupDirectoryByType ⟨true, [['2', '.', 'j', 's', 'o', 'n'],
        ['f', 'o', 'o', '.', 'j', 's', 'o', 'n']]⟩ = JsNum.nan ∧
    setupDirectoryByType ⟨true, [['2', '.', 'j', 's', 'o', 'n']]⟩
      = JsNum.num 2 ∧
    JsNum.nan ≠ JsNum.num 2 := by
  decide

/-- C3 amended: filenames not ending in the metadata extension are
silently skipped and do not affect the returned resume point (the result
depends only on the parsed token id list); but a filename ending in
.json whose stem does not parse as a number contributes NaN, which makes
the returned value NaN rather than being skipped. -/
theorem C3_non_json_skipped_nan_poisons :
    (∀ (f : List Char) (files : List (List Char)), endsIn jsonExt f = false →
      tokenIdsOf (f :: files) = tokenIdsOf files) ∧
    (∀ d1 d2 : DirState, d1.imagesExists = true → d2.imagesExists = true →
      tokenIdsOf d1.filenames = tokenIdsOf d2.filenames →
      setupDirectoryByType d1 = setupDirectoryByType d2) ∧
    (∀ d : DirState, d.imagesExists = true →
      JsNum.nan ∈ tokenIdsOf d.filenames →
      setupDirectoryByType d = JsNum.nan) := by
  refine ⟨?_, ?_, ?_⟩
  · intro f files hf
    unfold tokenIdsOf
    rw [List.flatMap_cons, hf]
    simp
  · intro d1 d2 h1 h2 htok
    unfold setupDirectoryByType
    rw [h1, h2, htok]
  · intro d himg hmem
    unfold setupDirectoryByType
    rw [himg]
    simp only [Bool.true_eq_false, if_false]
    rw [if_pos (List.length_pos.mpr (List.ne_nil_of_mem hmem))]
    exact mathMax_nan_mem _ hmem

theorem C3_witness :
    tokenIdsOf [['a'], ['2', '.', 'j', 's', 'o', 'n']]
      = tokenIdsOf [['2', '.', 'j', 's', 'o', 'n']] ∧
    setupDirectoryByType ⟨true, [['2', '.', 'j', 's', 'o', 'n'],
        ['b', 'a', 'd', '.', 'j', 's', 'o', 'n']]⟩ = JsNum.nan :=
  ⟨C3_non_json_skipped_nan_poisons.1 ['a'] [['2', '.', 'j', 's', 'o', 'n']]
      (by decide),
    C3_non_json_skipped_nan_poisons.2.2
      ⟨true, [['2', '.', 'j', 's', 'o', 'n'],
        ['b', 'a', 'd', '.', 'j', 's', 'o', 'n']]⟩ rfl (by decide)⟩

theorem C10_witness :
    (postProcess ⟨fun _ => true, fun j => decide (j < 2)⟩
        ⟨fun _ => false, fun _ => false⟩ 1 4).err
      = some (PPError.imageReadFailed 2) ∧
    (postProcess ⟨fun _ => true, fun j => decide (j < 2)⟩
        ⟨fun _ => false, fun _ => false⟩ 1 4).fs.meta 2 = true ∧
    (postProcess ⟨fun _ => true, fun j => decide (j < 2)⟩
        ⟨fun _ => false, fun _ => false⟩ 1 4).fs.image 2 = false ∧
    (postProcess ⟨fun _ => true, fun j => decide (j < 2)⟩
        ⟨fun _ => false, fun _ => false⟩ 1 4).terminal = 2 := by
  have h := C10_transform_not_atomic_on_error
    ⟨fun _ => true, fun j => decide (j < 2)⟩
    ⟨fun _ => false, fun _ => false⟩ 1 2 4 (by decide) (by decide) rfl rfl
    (fun j ha hb => ⟨rfl, by simpa using hb⟩)
  exact ⟨h.1, h.2.1, h.2.2.1, h.2.2.2.1⟩

/-! ### Lemmas about the Locator Resolver -/

theorem suffixMatch_spec (rest2 : List Char) :
    (∃ post, rest2 = suffixMatch rest2 ++ post) ∧
    (suffixMatch rest2 = [] ∨ ∃ ds, suffixMatch rest2 = '/' :: ds ∧
      ds ≠ [] ∧ ds.all Char.isDigit = true) := by
  unfold suffixMatch
  split
  · rename_i rest3
    by_cases hds : rest3.takeWhile Char.isDigit = []
    · rw [if_pos hds]
      exact ⟨⟨'/' :: rest3, rfl⟩, Or.inl rfl⟩
    · rw [if_neg hds]
      refine ⟨⟨rest3.dropWhile Char.isDigit, ?_⟩,
        Or.inr ⟨_, rfl, hds, List.all_takeWhile⟩⟩
      simp
  · exact ⟨⟨rest2, rfl⟩, Or.inl rfl⟩

theorem matchAt_some (cs m : List Char) (h : matchAt cs = some m) :
    IsIPFSToken m ∧ ∃ post, cs = m ++ post := by
  unfold matchAt at h
  split at h
  · rename_i q m1 rest
    split at h
    · rename_i hcond
      obtain ⟨hq, hm1, hlen, hall⟩ := hcond
      subst hq
      subst hm1
      split at h
      · rename_i c rest2 hdrop
        split at h
        · exact absurd h (by simp)
        · rename_i hc
          injection h with hm
          obtain ⟨⟨post2, hpost2⟩, hsfx⟩ := suffixMatch_spec rest2
          constructor
          · refine ⟨rest.take 43, c, suffixMatch rest2, ?_, hlen, hall,
              hc, hsfx⟩
            rw [← hm]
            simp
          · refine ⟨post2, ?_⟩
            have hr : rest = rest.take 43 ++ (c :: rest2) := by
              conv_lhs => rw [← List.take_append_drop 43 rest]
              rw [hdrop]
            rw [← hm]
            conv_lhs => rw [hr, hpost2]
            simp
      · exact absurd h (by simp)
    · exact absurd h (by simp)
  · exact absurd h (by simp)

theorem matchAt_isToken (m : List Char) (hm : IsIPFSToken m)
    (post : List Char) : ∃ m2, matchAt (m ++ post) = some m2 := by
  obtain ⟨body, c, suf, rfl, hlen, hall, hc, hsuf⟩ := hm
  have harr : ('Q' :: 'm' :: (body ++ c :: suf)) ++ post
      = 'Q' :: 'm' :: (body ++ c :: (suf ++ post)) := by simp
  rw [harr]
  have htake : (body ++ c :: (suf ++ post)).take 43 = body :=
    List.take_left' hlen
  have hdrop : (body ++ c :: (suf ++ post)).drop 43 = c :: (suf ++ post) :=
    List.drop_left' hlen
  refine ⟨'Q' :: 'm' :: (body ++ [c]) ++ suffixMatch (suf ++ post), ?_⟩
  simp only [matchAt]
  rw [htake, hdrop, if_pos (by exact ⟨trivial, trivial, hlen, hall⟩)]
  show (if c = 'O' ∨ c = 'I' ∨ c = 'l' then none
      else some ('Q' :: 'm' :: (body ++ [c]) ++ suffixMatch (suf ++ post)))
    = some ('Q' :: 'm' :: (body ++ [c]) ++ suffixMatch (suf ++ post))
  rw [if_neg hc]

theorem ipfsMatch_some : ∀ s m : List Char, ipfsMatch s = some m →
    IsIPFSToken m ∧ ∃ pre post, s = pre ++ m ++ post := by
  intro s
  induction s with
  | nil => intro m h; simp [ipfsMatch] at h
  | cons c rest ih =>
    intro m h
    rw [ipfsMatch] at h
    cases hma : matchAt (c :: rest) with
    | some m2 =>
      rw [hma] at h
      injection h with hm
      subst hm
      obtain ⟨htok, post, hpost⟩ := matchAt_some _ _ hma
      exact ⟨htok, [], post, by simpa using hpost⟩
    | none =>
      rw [hma] at h
      obtain ⟨htok, pre, post, hdec⟩ := ih m h
      exact ⟨htok, c :: pre, post, by simp [hdec]⟩

theorem ipfsMatch_isSome_of_contains (pre m post : List Char)
    (hm : IsIPFSToken m) : ipfsMatch (pre ++ (m ++ post)) ≠ none := by
  induction pre with
  | nil =>
    obtain ⟨m2, hm2⟩ := matchAt_isToken m hm post
    have hshape : ∃ t, m = 'Q' :: 'm' :: t := by
      obtain ⟨body, c, suf, heq, _⟩ := hm
      exact ⟨_, heq⟩
    obtain ⟨t, ht⟩ := hshape
    subst ht
    rw [List.cons_append, List.cons_append] at hm2
    rw [List.nil_append, List.cons_append, List.cons_append]
    rw [ipfsMatch, hm2]
    simp
  | cons p ps ih =>
    rw [List.cons_append, ipfsMatch]
    cases hma : matchAt (p :: (ps ++ (m ++ post))) with
    | some m2 => simp
    | none => simpa using ih

theorem ipfsMatch_none_no_token (s : List Char) (h : ipfsMatch s = none) :
    ∀ pre m post, s = pre ++ m ++ post → ¬ IsIPFSToken m := by
  intro pre m post hdec hm
  apply ipfsMatch_isSome_of_contains pre m post hm
  rw [← List.append_assoc, ← hdec]
  exact h

/-- C4 counterexample: the string Qm followed by 43 copies of the letter
I and the digit 1 contains the visually ambiguous character I in every
candidate token, so under the claimed characterization it is not
content-addressed; yet the code classifies it as IPFS, because the
character class of IPFSRegex only excludes the digit 0 from the
43-character body and only excludes O, I, l from the final position. -/
theorem C4_counterexample :
    collectURILocation ('Q' :: 'm' :: (List.replicate 43 'I' ++ ['1']))
      = Except.ok (URILocation.IPFS,
          'Q' :: 'm' :: (List.replicate 43 'I' ++ ['1'])) ∧
    specIsContentAddressed ('Q' :: 'm' :: (List.replicate 43 'I' ++ ['1']))
      = false := by
  decide

/-- C4 amended: the Locator Resolver classifies a string as
content-addressed exactly when it contains a token matching IPFSRegex —
Qm, then 43 characters from the class [1-9A-Za-z] (which excludes the
digit 0 but allows the letters O, I, l), then one character that is
anything except O, I, l, optionally followed by a slash and digits; on
match the returned normalized locator is exactly the (leftmost) matched
substring; failing that, a string containing the substring https:// is
classified location-addressed with the URI returned unmodified. -/
theorem C4_locator_classification (s : List Char) :
    ((∃ v, collectURILocation s = Except.ok (URILocation.IPFS, v)) ↔
      ∃ pre m post, s = pre ++ m ++ post ∧ IsIPFSToken m) ∧
    (∀ m, collectURILocation s = Except.ok (URILocation.IPFS, m) →
      IsIPFSToken m ∧ ∃ pre post, s = pre ++ m ++ post) ∧
    ((∀ pre m post, s = pre ++ m ++ post → ¬ IsIPFSToken m) →
      hasSubstr httpsMark s = true →
      collectURILocation s = Except.ok (URILocation.HTTPS, s)) := by
  refine ⟨⟨?_, ?_⟩, ?_, ?_⟩
  · rintro ⟨v, hv⟩
    unfold collectURILocation at hv
    cases hma : ipfsMatch s with
    | some m2 =>
      obtain ⟨htok, pre, post, hdec⟩ := ipfsMatch_some s m2 hma
      exact ⟨pre, m2, post, hdec, htok⟩
    | none =>
      rw [hma] at hv
      by_cases hh : hasSubstr httpsMark s = true
      · rw [if_pos hh] at hv
        exact absurd hv (by simp)
      · rw [if_neg hh] at hv
        exact absurd hv (by simp)
  · rintro ⟨pre, m, post, hdec, hm⟩
    cases hma : ipfsMatch s with
    | some m2 =>
      refine ⟨m2, ?_⟩
      unfold collectURILocation
      rw [hma]
    | none => exact absurd hm (ipfsMatch_none_no_token s hma pre m post hdec)
  · intro m hv
    unfold collectURILocation at hv
    cases hma : ipfsMatch s with
    | some m2 =>
      rw [hma] at hv
      obtain ⟨htok, pre, post, hdec⟩ := ipfsMatch_some s m2 hma
      have hmm : m2 = m := by
        injection hv with hv2
        exact congrArg Prod.snd hv2
      subst hmm
      exact ⟨htok, pre, post, hdec⟩
    | none =>
      rw [hma] at hv
      by_cases hh : hasSubstr httpsMark s = true
      · rw [if_pos hh] at hv
        exact absurd hv (by simp)
      · rw [if_neg hh] at hv
        exact absurd hv (by simp)
  · intro hno hh
    have hma : ipfsMatch s = none := by
      cases hma : ipfsMatch s with
      | some m2 =>
        obtain ⟨htok, pre, post, hdec⟩ := ipfsMatch_some s m2 hma
        exact absurd htok (hno pre m2 post hdec)
      | none => rfl
    unfold collectURILocation
    rw [hma, if_pos hh]

theorem C4_witness :
    collectURILocation ("https://example.com/x.json".toList)
      = Except.ok (URILocation.HTTPS, "https://example.com/x.json".toList) :=
  (C4_locator_classification "https://example.com/x.json".toList).2.2
    (ipfsMatch_none_no_token _ (by decide)) (by decide)

/-- C5: for every input string that contains no IPFSRegex token and no
https:// substring (for example ftp://x), collectURILocation reaches the
process.exit path, modelled as the non-retryable UnsupportedLocatorError
value: it never returns the content-addressed or the location-addressed
variant. -/
theorem C5_unsupported_locator (uri : List Char)
    (hno : ∀ pre m post, uri = pre ++ m ++ post → ¬ IsIPFSToken m)
    (hh : hasSubstr httpsMark uri = false) :
    collectURILocation uri
      = Except.error (URIError.UnsupportedLocatorError uri) ∧
    ∀ v, collectURILocation uri ≠ Except.ok v := by
  have hma : ipfsMatch uri = none := by
    cases hma : ipfsMatch uri with
    | some m2 =>
      obtain ⟨htok, pre, post, hdec⟩ := ipfsMatch_some uri m2 hma
      exact absurd htok (hno pre m2 post hdec)
    | none => rfl
  have hmain : collectURILocation uri
      = Except.error (URIError.UnsupportedLocatorError uri) := by
    unfold collectURILocation
    rw [hma, if_neg (by simp [hh])]
  exact ⟨hmain, fun v hv => by rw [hmain] at hv; exact absurd hv (by simp)⟩

theorem C5_witness :
    collectURILocation ['f', 't', 'p', ':', '/', '/', 'x']
      = Except.error (URIError.UnsupportedLocatorError
          ['f', 't', 'p', ':', '/', '/', 'x']) :=
  (C5_unsupported_locator ['f', 't', 'p', ':', '/', '/', 'x']
    (ipfsMatch_none_no_token _ (by decide)) (by decide)).1

/-! ### Lemmas about the Publish Stage Phase B rewrite -/

/-- C8: the Phase B rewrite replaces only the image field with the
canonical reference built from the images hash and the file's id — every
other field keeps its value, the keys and their order are unchanged —
and the rewrite is idempotent: applying it twice with the same hash
yields the same mapping (hence the same serialized bytes) as applying it
once. -/
theorem C8_publish_rewrite_idempotent (imagesHash : List Char) (tokenId : ℕ)
    (m : Meta) :
    (∀ k, k ≠ imageKey →
      lookupKey k (rewriteImageField imagesHash tokenId m) = lookupKey k m) ∧
    ((∃ v, lookupKey imageKey m = some v) →
      lookupKey imageKey (rewriteImageField imagesHash tokenId m)
        = some (JVal.str (canonicalImageRef imagesHash tokenId))) ∧
    (rewriteImageField imagesHash tokenId m).map Prod.fst = m.map Prod.fst ∧
    rewriteImageField imagesHash tokenId
        (rewriteImageField imagesHash tokenId m)
      = rewriteImageField imagesHash tokenId m := by
  refine ⟨?_, ?_, ?_, ?_⟩
  · intro k hk
    induction m with
    | nil => rfl
    | cons kv rest ih =>
      by_cases hkey : kv.1 = imageKey
      · rw [rewriteImageField, List.map_cons, if_pos hkey]
        rw [lookupKey, lookupKey]
        rw [if_neg (by rw [hkey]; exact fun he => hk he.symm),
          if_neg (by rw [hkey]; exact fun he => hk he.symm)]
        exact ih
      · rw [rewriteImageField, List.map_cons, if_neg hkey]
        rw [lookupKey, lookupKey]
        by_cases hkk : kv.1 = k
        · rw [if_pos hkk, if_pos hkk]
        · rw [if_neg hkk, if_neg hkk]
          exact ih
  · intro hex
    induction m with
    | nil => obtain ⟨v, hv⟩ := hex; exact absurd hv (by simp [lookupKey])
    | cons kv rest ih =>
      by_cases hkey : kv.1 = imageKey
      · rw [rewriteImageField, List.map_cons, if_pos hkey]
        rw [lookupKey, if_pos hkey]
      · rw [rewriteImageField, List.map_cons, if_neg hkey]
        rw [lookupKey, if_neg hkey]
        obtain ⟨v, hv⟩ := hex
        rw [lookupKey, if_neg hkey] at hv
        exact ih ⟨v, hv⟩
  · induction m with
    | nil => rfl
    | cons kv rest ih =>
      by_cases hkey : kv.1 = imageKey
      · rw [rewriteImageField, List.map_cons, if_pos hkey, List.map_cons,
          List.map_cons]
        rw [rewriteImageField] at ih
        rw [ih]
      · rw [rewriteImageField, List.map_cons, if_neg hkey, List.map_cons,
          List.map_cons]
        rw [rewriteImageField] at ih
        rw [ih]
  · unfold rewriteImageField
    rw [List.map_map]
    apply List.map_congr_left
    intro kv _
    by_cases hkey : kv.1 = imageKey
    · simp [Function.comp, hkey]
    · simp [Function.comp, hkey]

theorem C8_witness :
    lookupKey ['n', 'a', 'm', 'e'] (rewriteImageField ['H'] 7
        [(imageKey, JVal.str "ipfs://oldcid/7.png".toList),
         (['n', 'a', 'm', 'e'], JVal.str ['X'])])
      = some (JVal.str ['X']) ∧
    lookupKey imageKey (rewriteImageField ['H'] 7
        [(imageKey, JVal.str "ipfs://oldcid/7.png".toList),
         (['n', 'a', 'm', 'e'], JVal.str ['X'])])
      = some (JVal.str "cas://H/7.png".toList) ∧
    rewriteImageField ['H'] 7 (rewriteImageField ['H'] 7
        [(imageKey, JVal.str "ipfs://oldcid/7.png".toList),
         (['n', 'a', 'm', 'e'], JVal.str ['X'])])
      = rewriteImageField ['H'] 7
        [(imageKey, JVal.str "ipfs://oldcid/7.png".toList),
         (['n', 'a', 'm', 'e'], JVal.str ['X'])] := by
  have h := C8_publish_rewrite_idempotent ['H'] 7
    [(imageKey, JVal.str "ipfs://oldcid/7.png".toList),
     (['n', 'a', 'm', 'e'], JVal.str ['X'])]
  refine ⟨h.1 ['n', 'a', 'm', 'e'] (by decide), ?_, h.2.2.2⟩
  have h2 := h.2.1 ⟨JVal.str "ipfs://oldcid/7.png".toList, by decide⟩
  rw [h2]
  decide

end Flipper
